import Mathlib

/-!
Verification of the KoFinCorpus link-discovery and download core.

The TypeScript source (`src/lib/FileLinkFetcher.ts`, `src/lib/FileDownloader.ts`)
is shallowly embedded: the page-walk loop becomes a fuel-indexed recursion over a
page-fetch oracle, the filesystem becomes a partial map from paths to byte lists,
the HTTP client becomes an oracle from urls to optional responses, and the
checkpoint JSON serialization/parsing is modelled character for character.
-/

namespace KoFin

/-- `FileLink` from `FileDownloader.ts`: `{url: string, filename: string}`. -/
structure FileLink where
  url : String
  filename : String
deriving DecidableEq, Repr

/-- An anchor as returned by the page renderer: `{href, title}` pairs
(`FileLinkFetcher.getFileLinksFromPage`'s `page.evaluate`). -/
structure Anchor where
  href : String
  title : String

/-- `getFileLinksFromPage`: render the page (the puppeteer call is the oracle
`render`; a `none` is the caught fetch/parse failure, which leaves the local
`fileLinks` accumulator empty), then keep each anchor whose href matches the
download pattern and whose title yields a filename.  The two extraction
helpers are source-specific regex matches, modelled as opaque collaborators
returning `Option String`; the JS truthiness test `if (fileUrl && filename)`
additionally rejects empty strings. -/
def getFileLinksFromPage (render : String → Option (List Anchor))
    (extractFileUrl : String → Option String)
    (extractFileNameFromTitle : String → Option String)
    (pageUrl : String) : List FileLink :=
  match render pageUrl with
  | none => []
  | some anchors =>
    anchors.filterMap fun a =>
      match extractFileUrl a.href, extractFileNameFromTitle a.title with
      | some u, some f => if u = "" ∨ f = "" then none else some ⟨u, f⟩
      | _, _ => none

/-- The duplicate-page test from `fetchAllFileLinks`:
`lastPageLinks.length === pageFileLinks.length && lastPageLinks.every((link, index) =>
 link.url === pageFileLinks[index].url && link.filename === pageFileLinks[index].filename)`. -/
def isDuplicatePage (last cur : List FileLink) : Bool :=
  last.length == cur.length &&
    (last.zip cur).all fun p => p.1.url == p.2.url && p.1.filename == p.2.filename

/-- Why the loop stopped: the duplicate-page branch or the short-page branch. -/
inductive StopReason where
  | duplicatePage
  | shortPage
deriving DecidableEq, Repr

/-- The `while (true)` page-walk loop body of `fetchAllFileLinks`, with explicit
fuel (the loop has no bound in the source; `none` models a run that has not
terminated within the given fuel).  State: current page number, previous page's
links (`lastPageLinks`), accumulator (`fileLinks`), and the trace of page
numbers fetched so far.  Returns the final accumulator, the fetch trace, and
the branch that stopped the loop. -/
def walkAux (fetch : Nat → List FileLink) (maxItemsPerPage : Nat) :
    Nat → Nat → List FileLink → List FileLink → List Nat →
    Option (List FileLink × List Nat × StopReason)
  | 0, _, _, _, _ => none
  | fuel + 1, page, last, acc, fetched =>
    let pageFileLinks := fetch page
    let fetched' := fetched ++ [page]
    if isDuplicatePage last pageFileLinks then
      some (acc, fetched', StopReason.duplicatePage)
    else
      let acc' := acc ++ pageFileLinks
      if pageFileLinks.length < maxItemsPerPage then
        some (acc', fetched', StopReason.shortPage)
      else
        walkAux fetch maxItemsPerPage fuel (page + 1) pageFileLinks acc' fetched'

/-! ## Checkpoint serialization (`saveFileLinksToJson`)

`saveFileLinksToJson` writes
`'[\n' + fileLinks.map(link => '  ' + JSON.stringify(link)).join(',\n') + '\n]'`.
`JSON.stringify({url, filename})` produces `{"url":"…","filename":"…"}` with the
string escaping of the JSON standard: `"` and `\` get a backslash escape, the
control characters with short escapes use them, the remaining control
characters become `\u00XX` with lowercase hex, and every other character is
emitted literally. -/

/-- Lowercase hexadecimal digit, as produced by JavaScript number formatting. -/
def hexDigitChar (n : Nat) : Char :=
  if n < 10 then Char.ofNat (48 + n) else Char.ofNat (87 + n)

/-- JSON string escaping of one character (`JSON.stringify` on strings). -/
def escapeChar (c : Char) : List Char :=
  if c = '"' then ['\\', '"']
  else if c = '\\' then ['\\', '\\']
  else if c = Char.ofNat 8 then ['\\', 'b']
  else if c = Char.ofNat 9 then ['\\', 't']
  else if c = Char.ofNat 10 then ['\\', 'n']
  else if c = Char.ofNat 12 then ['\\', 'f']
  else if c = Char.ofNat 13 then ['\\', 'r']
  else if c.toNat < 32 then
    ['\\', 'u', '0', '0', hexDigitChar (c.toNat / 16), hexDigitChar (c.toNat % 16)]
  else [c]

/-- JSON string escaping of a character list. -/
def escapeList : List Char → List Char
  | [] => []
  | c :: rest => escapeChar c ++ escapeList rest

/-- A JSON string literal: quote, escaped body, quote. -/
def quoteJson (s : String) : List Char :=
  '"' :: (escapeList s.data ++ ['"'])

/-- `JSON.stringify(link)` for a `FileLink`: `{"url":"…","filename":"…"}`
(object keys in insertion order, no whitespace). -/
def stringifyLink (l : FileLink) : List Char :=
  '{' :: (quoteJson "url" ++ ':' :: (quoteJson l.url ++
    ',' :: (quoteJson "filename" ++ ':' :: (quoteJson l.filename ++ ['}']))))

/-- `fileLinks.map(link => '  ' + JSON.stringify(link)).join(',\n')`. -/
def joinItems : List FileLink → List Char
  | [] => []
  | [l] => ' ' :: ' ' :: stringifyLink l
  | l :: rest => ' ' :: ' ' :: (stringifyLink l ++ ',' :: '\n' :: joinItems rest)

/-- The full checkpoint file content written by `saveFileLinksToJson`. -/
def serializeFileLinks (links : List FileLink) : String :=
  String.mk ('[' :: '\n' :: (joinItems links ++ '\n' :: ']' :: []))

/-! ## Checkpoint parsing (`JSON.parse` on the checkpoint grammar)

`fetchAllFileLinks` reads the checkpoint back with
`JSON.parse(fs.readFileSync(existingFilePath, 'utf8'))` and uses the result as a
`FileLink[]` without validation.  The model is a standard JSON parser
specialized to the checkpoint schema (an array of objects whose two members are
the strings `url` and `filename`, in either key order): string escapes,
insignificant whitespace and the end-of-input requirement follow the JSON
standard; a malformed input is a thrown parse error, modelled as `none`. -/

/-- JSON insignificant whitespace. -/
def isJsonWs (c : Char) : Bool :=
  c = ' ' || c = '\n' || c = '\r' || c = '\t'

/-- Drop leading JSON whitespace. -/
def skipWs : List Char → List Char
  | [] => []
  | c :: rest => if isJsonWs c then skipWs rest else c :: rest

/-- Value of one hexadecimal digit, either case. -/
def hexVal (c : Char) : Option Nat :=
  if '0' ≤ c ∧ c ≤ '9' then some (c.toNat - 48)
  else if 'a' ≤ c ∧ c ≤ 'f' then some (c.toNat - 87)
  else if 'A' ≤ c ∧ c ≤ 'F' then some (c.toNat - 55)
  else none

/-- Parse the body of a JSON string up to and including the closing quote,
returning the decoded characters and the unconsumed remainder.  Unescaped
control characters are rejected, as in the JSON standard; a `\uXXXX` escape
denoting a surrogate half has no Unicode-scalar decoding and is rejected. -/
def parseStringBody : List Char → Option (List Char × List Char)
  | [] => none
  | c :: rest =>
    if c = '"' then some ([], rest)
    else if c = '\\' then
      match rest with
      | [] => none
      | e :: rest2 =>
        if e = '"' then (parseStringBody rest2).map fun p => ('"' :: p.1, p.2)
        else if e = '\\' then (parseStringBody rest2).map fun p => ('\\' :: p.1, p.2)
        else if e = '/' then (parseStringBody rest2).map fun p => ('/' :: p.1, p.2)
        else if e = 'b' then (parseStringBody rest2).map fun p => (Char.ofNat 8 :: p.1, p.2)
        else if e = 't' then (parseStringBody rest2).map fun p => (Char.ofNat 9 :: p.1, p.2)
        else if e = 'n' then (parseStringBody rest2).map fun p => (Char.ofNat 10 :: p.1, p.2)
        else if e = 'f' then (parseStringBody rest2).map fun p => (Char.ofNat 12 :: p.1, p.2)
        else if e = 'r' then (parseStringBody rest2).map fun p => (Char.ofNat 13 :: p.1, p.2)
        else if e = 'u' then
          match rest2 with
          | h1 :: h2 :: h3 :: h4 :: rest3 =>
            match hexVal h1, hexVal h2, hexVal h3, hexVal h4 with
            | some a, some b, some c2, some d =>
              let n := ((a * 16 + b) * 16 + c2) * 16 + d
              if n < 55296 ∨ 57344 ≤ n then
                (parseStringBody rest3).map fun p => (Char.ofNat n :: p.1, p.2)
              else none
            | _, _, _, _ => none
          | _ => none
        else none
    else if c.toNat < 32 then none
    else (parseStringBody rest).map fun p => (c :: p.1, p.2)

/-- Parse a JSON string literal (opening quote included). -/
def parseJsonString (l : List Char) : Option (List Char × List Char) :=
  match l with
  | [] => none
  | c :: rest => if c = '"' then parseStringBody rest else none

/-- Expect one specific character. -/
def expectChar (c : Char) (l : List Char) : Option (List Char) :=
  match l with
  | [] => none
  | d :: rest => if d = c then some rest else none

/-- Parse one `"key" : "value"` member (string values only, which is all the
checkpoint grammar contains). -/
def parseMember (l : List Char) : Option (String × String × List Char) :=
  match parseJsonString (skipWs l) with
  | none => none
  | some (key, r1) =>
    match expectChar ':' (skipWs r1) with
    | none => none
    | some r2 =>
      match parseJsonString (skipWs r2) with
      | none => none
      | some (val, r3) => some (String.mk key, String.mk val, r3)

/-- Parse one checkpoint object `{"url": …, "filename": …}` (either key
order, as JSON objects are unordered). -/
def parseObject (l : List Char) : Option (FileLink × List Char) :=
  match expectChar '{' (skipWs l) with
  | none => none
  | some r0 =>
    match parseMember r0 with
    | none => none
    | some (k1, v1, r1) =>
      match expectChar ',' (skipWs r1) with
      | none => none
      | some r2 =>
        match parseMember r2 with
        | none => none
        | some (k2, v2, r3) =>
          match expectChar '}' (skipWs r3) with
          | none => none
          | some r4 =>
            if k1 = "url" ∧ k2 = "filename" then some (⟨v1, v2⟩, r4)
            else if k1 = "filename" ∧ k2 = "url" then some (⟨v2, v1⟩, r4)
            else none

/-- Parse the non-empty tail of a JSON array of checkpoint objects: one object,
then either `,` and more items or the closing `]`.  Fueled: every step consumes
input, and callers pass the input length as fuel. -/
def parseItemsAux : Nat → List Char → Option (List FileLink × List Char)
  | 0, _ => none
  | fuel + 1, l =>
    match parseObject l with
    | none => none
    | some (link, r1) =>
      match skipWs r1 with
      | [] => none
      | c :: r2 =>
        if c = ',' then
          match parseItemsAux fuel r2 with
          | none => none
          | some (links, r3) => some (link :: links, r3)
        else if c = ']' then some ([link], r2)
        else none

/-- Parse a JSON array of checkpoint objects. -/
def parseArrayOfLinks (l : List Char) : Option (List FileLink × List Char) :=
  match expectChar '[' (skipWs l) with
  | none => none
  | some r =>
    match skipWs r with
    | [] => none
    | c :: r2 =>
      if c = ']' then some ([], r2)
      else parseItemsAux (l.length + 1) (c :: r2)

/-- `JSON.parse` of a checkpoint file: the array, then only whitespace may
remain. -/
def parseFileLinks (s : String) : Option (List FileLink) :=
  match parseArrayOfLinks s.data with
  | none => none
  | some (links, rest) => if skipWs rest = [] then some links else none

/-! ## `fetchAllFileLinks`: checkpoint reuse around the page-walk -/

/-- Result of one `fetchAllFileLinks` run: the returned list, the page numbers
fetched (in order), the checkpoint file content after the run (`none` would
mean no file; the function always leaves one), and the loop's stop branch
(`none` when the loop never ran because the checkpoint was reused). -/
structure DiscoveryResult where
  links : List FileLink
  pagesFetched : List Nat
  checkpointOut : Option String
  stopReason : Option StopReason
deriving Repr

/-- The page-walk plus `saveFileLinksToJson`: run the loop from `startPage`
with empty `lastPageLinks` and accumulator, then persist the accumulator. -/
def runWalk (fetch : Nat → List FileLink) (startPage maxItemsPerPage fuel : Nat) :
    Option DiscoveryResult :=
  (walkAux fetch maxItemsPerPage fuel startPage [] [] []).map fun r =>
    ⟨r.1, r.2.1, some (serializeFileLinks r.1), some r.2.2⟩

/-- `fetchAllFileLinks`.  `checkpoint` is the existing checkpoint file's
content (`none` when no file exists); `useExisting` is the operator's answer to
the reuse prompt, consulted only when a checkpoint exists.  A reused checkpoint
is parsed with `JSON.parse` and returned unchanged, with no page fetch and no
rewrite; otherwise the walk runs and overwrites the checkpoint. -/
def fetchAllFileLinks (checkpoint : Option String) (useExisting : Bool)
    (fetch : Nat → List FileLink) (startPage maxItemsPerPage fuel : Nat) :
    Option DiscoveryResult :=
  match checkpoint with
  | some content =>
    if useExisting then
      (parseFileLinks content).map fun links => ⟨links, [], some content, none⟩
    else
      runWalk fetch startPage maxItemsPerPage fuel
  | none => runWalk fetch startPage maxItemsPerPage fuel

/-! ## `FileDownloader` -/

/-- `path.join(this.folderPath, fileLink.filename)`. -/
def pathJoin (folder filename : String) : String :=
  folder ++ "/" ++ filename

/-- An HTTP response as `downloadFile` consumes it: the optional
`content-length` header (already parsed to a number) and the body bytes. -/
structure HttpResponse where
  contentLength : Option Nat
  body : List Nat

/-- The local filesystem, as a partial map from paths to file bytes. -/
def FS : Type := String → Option (List Nat)

/-- Writing a file (after `unlinkSync` on the replacement path, the combined
effect of delete-then-stream is one whole-file write). -/
def FS.write (fs : FS) (p : String) (b : List Nat) : FS :=
  fun q => if q = p then some b else fs q

/-- `downloadFile`: `axios.get` is the oracle `net` (`none` is a request
failure, which the `catch` re-throws, modelled as `.error`).  With an existing
file at the destination: no `content-length` ⇒ skip; equal sizes ⇒ skip;
different sizes ⇒ delete and re-download.  Returns the filesystem and the
`{downloaded}` flag. -/
def downloadFile (net : String → Option HttpResponse) (folder : String)
    (fs : FS) (link : FileLink) : Except Unit (FS × Bool) :=
  let filePath := pathJoin folder link.filename
  match net link.url with
  | none => Except.error ()
  | some resp =>
    match fs filePath with
    | some existing =>
      match resp.contentLength with
      | none => Except.ok (fs, false)
      | some tempFileSize =>
        if existing.length = tempFileSize then Except.ok (fs, false)
        else Except.ok (FS.write fs filePath resp.body, true)
    | none => Except.ok (FS.write fs filePath resp.body, true)

/-- Per-file terminal state (spec §3 `DownloadOutcome`). -/
inductive Outcome where
  | downloaded
  | skipped
  | failed
deriving DecidableEq, Repr

/-- Result of `downloadAllFiles`: either a normal return or an exception
propagating out of the loop, in both cases with the filesystem after the run
and the per-file outcomes of the files attempted (in order). -/
inductive BatchResult where
  | ok (fs : FS) (outcomes : List Outcome)
  | raised (fs : FS) (outcomes : List Outcome)

/-- `downloadAllFiles`: iterate in order; a throw from `downloadFile` aborts
the loop and propagates (the pacing delay after a download has no effect on
files or outcomes and is not modelled). -/
def downloadAllFiles (net : String → Option HttpResponse) (folder : String)
    (fs : FS) : List FileLink → BatchResult
  | [] => BatchResult.ok fs []
  | link :: rest =>
    match downloadFile net folder fs link with
    | Except.error _ => BatchResult.raised fs [Outcome.failed]
    | Except.ok (fs1, d) =>
      let outcome := if d then Outcome.downloaded else Outcome.skipped
      match downloadAllFiles net folder fs1 rest with
      | BatchResult.ok fs2 outs => BatchResult.ok fs2 (outcome :: outs)
      | BatchResult.raised fs2 outs => BatchResult.raised fs2 (outcome :: outs)

/-- Result of `confirmAndDownloadFiles`: `returned` is a normal return,
`raised` an exception escaping to its caller. -/
inductive RunResult where
  | returned (fs : FS) (outcomes : List Outcome)
  | raised (fs : FS) (outcomes : List Outcome)

/-- Whether a `RunResult` is an escaping exception. -/
def RunResult.isRaised : RunResult → Bool
  | RunResult.returned _ _ => false
  | RunResult.raised _ _ => true

/-- `confirmAndDownloadFiles`: one confirmation on the whole batch; "no"
returns with no side effects; "yes" runs `downloadAllFiles` inside
`try … catch`, and the `catch` only logs — the error does not escape. -/
def confirmAndDownloadFiles (confirmed : Bool) (net : String → Option HttpResponse)
    (folder : String) (fs : FS) (links : List FileLink) : RunResult :=
  if confirmed then
    match downloadAllFiles net folder fs links with
    | BatchResult.ok fs1 outs => RunResult.returned fs1 outs
    | BatchResult.raised fs1 outs => RunResult.returned fs1 outs
  else
    RunResult.returned fs []

/-- Concatenation of the lists a fetch oracle yields on a list of pages. -/
def pagesLinks (fetch : Nat → List FileLink) : List Nat → List FileLink
  | [] => []
  | p :: ps => fetch p ++ pagesLinks fetch ps

/-! ## Lemmas about the duplicate-page test and the walk -/

theorem isDuplicatePage_iff : ∀ l1 l2 : List FileLink, isDuplicatePage l1 l2 = true ↔ l1 = l2
  | [], [] => by simp [isDuplicatePage]
  | [], _ :: _ => by simp [isDuplicatePage]
  | _ :: _, [] => by simp [isDuplicatePage]
  | a :: t1, b :: t2 => by
    have ih := isDuplicatePage_iff t1 t2
    obtain ⟨au, af⟩ := a
    obtain ⟨bu, bf⟩ := b
    simp only [isDuplicatePage, List.zip_cons_cons, List.all_cons, List.length_cons,
      Bool.and_eq_true, beq_iff_eq, Nat.add_right_cancel_iff, List.cons.injEq,
      FileLink.mk.injEq] at ih ⊢
    tauto

theorem isDuplicatePage_self (l : List FileLink) : isDuplicatePage l l = true :=
  (isDuplicatePage_iff l l).mpr rfl

/-- C4: whenever a fetched page yields strictly fewer references than
`maxItemsPerPage`, the walk stops after that page — the loop returns at that
iteration, fetches exactly the current page and no further one, regardless of
the duplicate-check outcome on that page. -/
theorem short_page_termination (fetch : Nat → List FileLink)
    (m fuel page : Nat) (last acc : List FileLink) (fetched : List Nat)
    (h : (fetch page).length < m) :
    ∃ acc2 reason,
      walkAux fetch m (fuel + 1) page last acc fetched =
        some (acc2, fetched ++ [page], reason) := by
  by_cases hd : isDuplicatePage last (fetch page) = true
  · exact ⟨acc, StopReason.duplicatePage, by simp [walkAux, hd]⟩
  · exact ⟨acc ++ fetch page, StopReason.shortPage, by simp [walkAux, hd, h]⟩

/-- C4 witness: a page of 1 reference under `maxItemsPerPage = 10` stops the
walk at that page. -/
theorem short_page_termination_holds :
    ((fun _ : Nat => [FileLink.mk "u" "f"]) 1).length < 10 ∧
    ∃ acc2 reason,
      walkAux (fun _ => [FileLink.mk "u" "f"]) 10 3 1 [] [] [] =
        some (acc2, [] ++ [1], reason) :=
  ⟨by decide, short_page_termination (fun _ => [FileLink.mk "u" "f"]) 10 2 1 [] [] []
    (by decide)⟩

/-- C9: a fetch/extract failure on one listing page is absorbed —
`getFileLinksFromPage` degrades to the empty list, the walk's accumulator is
unchanged by that page, and the walk returns (no exception) right after that
page, fetching no further one. -/
theorem page_failure_degrades_and_stops (render : String → Option (List Anchor))
    (extU extN : String → Option String) (urlOf : Nat → String)
    (m fuel page : Nat) (last acc : List FileLink) (fetched : List Nat)
    (hfail : render (urlOf page) = none) (hm : 0 < m) :
    getFileLinksFromPage render extU extN (urlOf page) = [] ∧
    ∃ reason,
      walkAux (fun q => getFileLinksFromPage render extU extN (urlOf q))
          m (fuel + 1) page last acc fetched =
        some (acc, fetched ++ [page], reason) := by
  have hempty : getFileLinksFromPage render extU extN (urlOf page) = [] := by
    simp [getFileLinksFromPage, hfail]
  refine ⟨hempty, ?_⟩
  by_cases hd : isDuplicatePage last [] = true
  · exact ⟨StopReason.duplicatePage, by simp [walkAux, hempty, hd]⟩
  · exact ⟨StopReason.shortPage, by simp [walkAux, hempty, hd, hm]⟩

/-- C9 witness: a renderer failing on page 2's url, walked from a non-empty
previous page, contributes nothing and ends the walk at page 2. -/
theorem page_failure_degrades_and_stops_holds :
    (fun _ : String => (none : Option (List Anchor))) "p2" = none ∧ 0 < 10 ∧
    (getFileLinksFromPage (fun _ => none) (fun s => some s) (fun s => some s) "p2" = [] ∧
    ∃ reason,
      walkAux (fun q => getFileLinksFromPage (fun _ => none) (fun s => some s)
          (fun s => some s) (if q = 2 then "p2" else "p1"))
          10 5 2 [FileLink.mk "u" "f"] [FileLink.mk "u" "f"] [1] =
        some ([FileLink.mk "u" "f"], [1] ++ [2], reason)) :=
  ⟨rfl, by decide,
    page_failure_degrades_and_stops (fun _ => none) (fun s => some s) (fun s => some s)
      (fun q => if q = 2 then "p2" else "p1") 10 4 2
      [FileLink.mk "u" "f"] [FileLink.mk "u" "f"] [1] rfl (by decide)⟩

/-- C10: when the very first fetched page yields an empty list, the
duplicate-page check fires immediately (the previous-page list starts empty),
so the walk stops via the duplicate branch at the start page, returns no
links, fetches no second page, and persists the empty checkpoint `"[\n\n]"`. -/
theorem empty_first_page_duplicate_stop (fetch : Nat → List FileLink)
    (startPage m fuel : Nat) (u : Bool) (h : fetch startPage = []) :
    fetchAllFileLinks none u fetch startPage m (fuel + 1) =
      some ⟨[], [startPage], some "[\n\n]", some StopReason.duplicatePage⟩ := by
  have hdup : isDuplicatePage [] (fetch startPage) = true := by
    rw [h]; exact isDuplicatePage_self []
  have hser : serializeFileLinks [] = "[\n\n]" := rfl
  simp [fetchAllFileLinks, runWalk, walkAux, hdup, hser]

/-- C10 witness: a fetch oracle that always fails to the empty list. -/
theorem empty_first_page_duplicate_stop_holds :
    (fun _ : Nat => ([] : List FileLink)) 1 = [] ∧
    fetchAllFileLinks none false (fun _ => []) 1 80 1 =
      some ⟨[], [1], some "[\n\n]", some StopReason.duplicatePage⟩ :=
  ⟨rfl, empty_first_page_duplicate_stop (fun _ => []) 1 80 0 false rfl⟩

/-- C3: with an existing checkpoint and a "yes" answer, `fetchAllFileLinks`
returns exactly the parsed checkpoint, fetches no page and leaves the
checkpoint content untouched; with a "no" answer it behaves exactly as a run
without any checkpoint (the full walk), and whenever that run returns, the
checkpoint has been overwritten with the serialization of the newly
accumulated list. -/
theorem resumability_short_circuit (c : String) (links : List FileLink) (u : Bool)
    (fetch : Nat → List FileLink) (startPage m fuel : Nat) :
    (parseFileLinks c = some links →
      fetchAllFileLinks (some c) true fetch startPage m fuel =
        some ⟨links, [], some c, none⟩) ∧
    fetchAllFileLinks (some c) false fetch startPage m fuel =
      fetchAllFileLinks none u fetch startPage m fuel ∧
    (∀ res, fetchAllFileLinks (some c) false fetch startPage m fuel = some res →
      res.checkpointOut = some (serializeFileLinks res.links)) := by
  refine ⟨fun hp => by simp [fetchAllFileLinks, hp], by simp [fetchAllFileLinks],
    fun res hres => ?_⟩
  simp only [fetchAllFileLinks, Bool.false_eq_true, if_false, runWalk,
    Option.map_eq_some'] at hres
  obtain ⟨r, _, hr⟩ := hres
  rw [← hr]

/-- C3 witness: the empty checkpoint `"[\n\n]"` is reused verbatim on "yes",
and on "no" the walk runs and overwrites it. -/
theorem resumability_short_circuit_holds :
    parseFileLinks "[\n\n]" = some [] ∧
    (fetchAllFileLinks (some "[\n\n]") true (fun _ => []) 1 80 1 =
        some ⟨[], [], some "[\n\n]", none⟩) ∧
    fetchAllFileLinks (some "[\n\n]") false (fun _ => []) 1 80 1 =
      fetchAllFileLinks none true (fun _ => []) 1 80 1 ∧
    (∀ res, fetchAllFileLinks (some "[\n\n]") false (fun _ => []) 1 80 1 = some res →
      res.checkpointOut = some (serializeFileLinks res.links)) := by
  have h := resumability_short_circuit "[\n\n]" [] true (fun _ => []) 1 80 1
  exact ⟨by decide, h.1 (by decide), h.2.1, h.2.2⟩

/-- Structure of any terminating walk: the fetch trace extends the incoming
trace by a non-empty run of consecutive page numbers, and the accumulator
extends the incoming one by the concatenation of the fetched pages' lists —
all of them on a short-page stop, all but the final duplicate page on a
duplicate stop. -/
theorem walkAux_spec (fetch : Nat → List FileLink) (m : Nat) :
    ∀ fuel page last acc fetched acc2 tr reason,
      walkAux fetch m fuel page last acc fetched = some (acc2, tr, reason) →
      ∃ ps, tr = fetched ++ ps ∧ 0 < ps.length ∧ ps = List.range' page ps.length ∧
        acc2 = acc ++ pagesLinks fetch
          (if reason = StopReason.duplicatePage then ps.dropLast else ps) := by
  intro fuel
  induction fuel with
  | zero => intro page last acc fetched acc2 tr reason h; exact absurd h (by simp [walkAux])
  | succ fuel ih =>
    intro page last acc fetched acc2 tr reason h
    by_cases hd : isDuplicatePage last (fetch page) = true
    · simp only [walkAux, hd, if_true, Option.some.injEq, Prod.mk.injEq] at h
      obtain ⟨rfl, rfl, rfl⟩ := h
      exact ⟨[page], rfl, by simp, by simp [List.range'_one], by simp [pagesLinks]⟩
    · by_cases hs : (fetch page).length < m
      · simp only [walkAux, hd, if_false, Bool.false_eq_true, hs, if_true,
          Option.some.injEq, Prod.mk.injEq] at h
        obtain ⟨rfl, rfl, rfl⟩ := h
        refine ⟨[page], rfl, by simp, by simp [List.range'_one], ?_⟩
        simp [pagesLinks]
      · simp only [walkAux, hd, if_false, Bool.false_eq_true, hs] at h
        obtain ⟨ps', htr, hlen, hrange, hacc⟩ := ih (page + 1) _ _ _ _ _ _ h
        have hne : ps' ≠ [] := List.ne_nil_of_length_pos hlen
        refine ⟨page :: ps', by simp [htr], by simp, ?_, ?_⟩
        · simpa [List.range'_succ] using hrange
        · by_cases hr : reason = StopReason.duplicatePage
          · simp only [hr, if_true] at hacc ⊢
            simp [hacc, List.dropLast_cons_of_ne_nil hne, pagesLinks]
          · simp only [hr, if_false] at hacc ⊢
            simp [hacc, pagesLinks]

/-- When some page `N` and its successor yield equal lists, a sufficiently
fueled walk that has not yet passed page `N + 1` terminates without fetching
any page beyond `N + 1`, and if it reaches page `N + 1` it stops there through
the duplicate branch. -/
theorem walkAux_dup_bound (fetch : Nat → List FileLink) (m N : Nat)
    (hNN : fetch N = fetch (N + 1)) :
    ∀ fuel page last acc fetched, page ≤ N + 1 → (page = N + 1 → last = fetch N) →
      N + 2 ≤ page + fuel →
      ∃ acc2 ps reason,
        walkAux fetch m fuel page last acc fetched = some (acc2, fetched ++ ps, reason) ∧
        (∀ q ∈ ps, q ≤ N + 1) ∧
        (N + 1 ∈ ps → reason = StopReason.duplicatePage) := by
  intro fuel
  induction fuel with
  | zero => intro page last acc fetched h1 _ h3; omega
  | succ fuel ih =>
    intro page last acc fetched h1 h2 h3
    by_cases hd : isDuplicatePage last (fetch page) = true
    · refine ⟨acc, [page], StopReason.duplicatePage, by simp [walkAux, hd], ?_, fun _ => rfl⟩
      intro q hq
      simp only [List.mem_singleton] at hq
      omega
    · have hpage : page ≠ N + 1 := by
        intro hp
        apply hd
        rw [hp, h2 hp, hNN]
        exact isDuplicatePage_self _
      by_cases hs : (fetch page).length < m
      · refine ⟨acc ++ fetch page, [page], StopReason.shortPage,
          by simp [walkAux, hd, hs], ?_, ?_⟩
        · intro q hq
          simp only [List.mem_singleton] at hq
          omega
        · intro hmem
          simp only [List.mem_singleton] at hmem
          omega
      · obtain ⟨acc2, ps', reason, hw, hbound, hdup⟩ :=
          ih (page + 1) (fetch page) (acc ++ fetch page) (fetched ++ [page])
            (by omega) (fun hp => by rw [show page = N from by omega]) (by omega)
        refine ⟨acc2, page :: ps', reason, ?_, ?_, ?_⟩
        · simp only [walkAux, hd, if_false, Bool.false_eq_true, hs]
          simpa [List.append_assoc] using hw
        · intro q hq
          rcases List.mem_cons.mp hq with rfl | hq
          · omega
          · exact hbound q hq
        · intro hmem
          rcases List.mem_cons.mp hmem with heq | hmem
          · omega
          · exact hdup hmem

/-- C1: in a run without checkpoint reuse, if pages `N` and `N + 1` yield
identical reference lists, the walk never fetches page `N + 2` (every fetched
page is at most `N + 1`), and when page `N + 1` is fetched the run's links are
exactly the concatenation of the pages before it — the duplicate page's
references are not appended. -/
theorem duplicate_page_termination (fetch : Nat → List FileLink)
    (m startPage N fuel : Nat) (u : Bool)
    (h1 : startPage ≤ N) (h2 : fetch N = fetch (N + 1))
    (h3 : N + 2 ≤ startPage + fuel) :
    ∃ res, fetchAllFileLinks none u fetch startPage m fuel = some res ∧
      N + 2 ∉ res.pagesFetched ∧
      (∀ q ∈ res.pagesFetched, q ≤ N + 1) ∧
      (N + 1 ∈ res.pagesFetched →
        res.links = pagesLinks fetch res.pagesFetched.dropLast) := by
  obtain ⟨acc2, ps, reason, hw, hbound, hdup⟩ :=
    walkAux_dup_bound fetch m N h2 fuel startPage [] [] [] (by omega)
      (fun hp => absurd hp (by omega)) h3
  rw [List.nil_append] at hw
  refine ⟨⟨acc2, ps, some (serializeFileLinks acc2), some reason⟩, ?_, ?_, hbound, ?_⟩
  · simp [fetchAllFileLinks, runWalk, hw]
  · intro hmem
    have := hbound _ hmem
    omega
  · intro hmem
    obtain ⟨ps2, htr, _, _, hacc⟩ := walkAux_spec fetch m fuel startPage [] [] [] acc2 ps reason hw
    rw [List.nil_append] at htr
    subst htr
    rw [hdup hmem, if_pos rfl] at hacc
    simpa using hacc

/-- C1 witness: every page yields the same full two-item list under
`maxItemsPerPage = 2`, so the walk stops at page 2 by the duplicate check. -/
theorem duplicate_page_termination_holds :
    1 ≤ 1 ∧
    (fun _ : Nat => [FileLink.mk "u" "f", FileLink.mk "v" "g"]) 1 =
      (fun _ : Nat => [FileLink.mk "u" "f", FileLink.mk "v" "g"]) 2 ∧
    1 + 2 ≤ 1 + 3 ∧
    ∃ res, fetchAllFileLinks none true
        (fun _ => [FileLink.mk "u" "f", FileLink.mk "v" "g"]) 1 2 3 = some res ∧
      1 + 2 ∉ res.pagesFetched ∧
      (∀ q ∈ res.pagesFetched, q ≤ 1 + 1) ∧
      (1 + 1 ∈ res.pagesFetched →
        res.links = pagesLinks (fun _ => [FileLink.mk "u" "f", FileLink.mk "v" "g"])
          res.pagesFetched.dropLast) :=
  ⟨le_refl 1, rfl, by omega,
    duplicate_page_termination (fun _ => [FileLink.mk "u" "f", FileLink.mk "v" "g"])
      2 1 1 3 true (le_refl 1) rfl (by omega)⟩

/-! ## Download-side claims -/

/-- C5: with a file already at the destination — equal remote size means skip
with the filesystem untouched; a different remote size means the old file is
replaced by the remote body; a missing `content-length` means skip, again with
the filesystem untouched (never an overwrite). -/
theorem existing_file_size_policy (net : String → Option HttpResponse)
    (folder : String) (fs : FS) (link : FileLink)
    (existing : List Nat) (resp : HttpResponse)
    (hnet : net link.url = some resp)
    (hfs : fs (pathJoin folder link.filename) = some existing) :
    (∀ n, resp.contentLength = some n → existing.length = n →
      downloadFile net folder fs link = Except.ok (fs, false)) ∧
    (∀ n, resp.contentLength = some n → existing.length ≠ n →
      downloadFile net folder fs link =
        Except.ok (FS.write fs (pathJoin folder link.filename) resp.body, true)) ∧
    (resp.contentLength = none →
      downloadFile net folder fs link = Except.ok (fs, false)) := by
  refine ⟨fun n hn he => ?_, fun n hn he => ?_, fun hn => ?_⟩
  · simp [downloadFile, hnet, hfs, hn, he]
  · simp [downloadFile, hnet, hfs, hn, he]
  · simp [downloadFile, hnet, hfs, hn]

/-- C5 witness: a 1-byte file against remote sizes 1 (skip), 2 (replace by the
2-byte body) and an absent `content-length` (skip). -/
theorem existing_file_size_policy_holds :
    downloadFile (fun _ => some ⟨some 1, [7]⟩) "d"
      (fun p => if p = "d/f" then some [7] else none) ⟨"u", "f"⟩ =
      Except.ok ((fun p => if p = "d/f" then some [7] else none), false) ∧
    downloadFile (fun _ => some ⟨some 2, [8, 9]⟩) "d"
      (fun p => if p = "d/f" then some [7] else none) ⟨"u", "f"⟩ =
      Except.ok
        (FS.write (fun p => if p = "d/f" then some [7] else none) (pathJoin "d" "f") [8, 9],
          true) ∧
    downloadFile (fun _ => some ⟨none, [8, 9]⟩) "d"
      (fun p => if p = "d/f" then some [7] else none) ⟨"u", "f"⟩ =
      Except.ok ((fun p => if p = "d/f" then some [7] else none), false) :=
  ⟨(existing_file_size_policy (fun _ => some ⟨some 1, [7]⟩) "d"
      (fun p => if p = "d/f" then some [7] else none) ⟨"u", "f"⟩ [7] ⟨some 1, [7]⟩
      rfl (by simp [pathJoin])).1 1 rfl rfl,
   (existing_file_size_policy (fun _ => some ⟨some 2, [8, 9]⟩) "d"
      (fun p => if p = "d/f" then some [7] else none) ⟨"u", "f"⟩ [7] ⟨some 2, [8, 9]⟩
      rfl (by simp [pathJoin])).2.1 2 rfl (by decide),
   (existing_file_size_policy (fun _ => some ⟨none, [8, 9]⟩) "d"
      (fun p => if p = "d/f" then some [7] else none) ⟨"u", "f"⟩ [7] ⟨none, [8, 9]⟩
      rfl (by simp [pathJoin])).2.2 rfl⟩

/-- C6: in a batch `[A, B, C]`, when A downloads and B's fetch throws, the
loop's outcomes are exactly `downloaded, failed` — the exception propagates
out of `downloadAllFiles` and C is never attempted. -/
theorem batch_abort_on_failure (net : String → Option HttpResponse)
    (folder : String) (fs fs1 : FS) (A B C : FileLink)
    (hA : downloadFile net folder fs A = Except.ok (fs1, true))
    (hB : downloadFile net folder fs1 B = Except.error ()) :
    downloadAllFiles net folder fs [A, B, C] =
      BatchResult.raised fs1 [Outcome.downloaded, Outcome.failed] := by
  simp [downloadAllFiles, hA, hB]

/-- C6 witness: A's url succeeds on an empty folder, B's url fails. -/
theorem batch_abort_on_failure_holds :
    downloadFile (fun s => if s = "ua" then some ⟨some 1, [7]⟩ else none) "d"
      (fun _ => none) ⟨"ua", "a"⟩ =
      Except.ok (FS.write (fun _ => none) (pathJoin "d" "a") [7], true) ∧
    downloadFile (fun s => if s = "ua" then some ⟨some 1, [7]⟩ else none) "d"
      (FS.write (fun _ => none) (pathJoin "d" "a") [7]) ⟨"ub", "b"⟩ = Except.error () ∧
    downloadAllFiles (fun s => if s = "ua" then some ⟨some 1, [7]⟩ else none) "d"
      (fun _ => none) [⟨"ua", "a"⟩, ⟨"ub", "b"⟩, ⟨"uc", "c"⟩] =
      BatchResult.raised (FS.write (fun _ => none) (pathJoin "d" "a") [7])
        [Outcome.downloaded, Outcome.failed] := by
  have hA : downloadFile (fun s => if s = "ua" then some ⟨some 1, [7]⟩ else none) "d"
      (fun _ => none) ⟨"ua", "a"⟩ =
      Except.ok (FS.write (fun _ => none) (pathJoin "d" "a") [7], true) := by
    simp [downloadFile]
  have hB : downloadFile (fun s => if s = "ua" then some ⟨some 1, [7]⟩ else none) "d"
      (FS.write (fun _ => none) (pathJoin "d" "a") [7]) ⟨"ub", "b"⟩ = Except.error () := by
    simp [downloadFile]
  exact ⟨hA, hB,
    batch_abort_on_failure (fun s => if s = "ua" then some ⟨some 1, [7]⟩ else none)
      "d" (fun _ => none) (FS.write (fun _ => none) (pathJoin "d" "a") [7])
      ⟨"ua", "a"⟩ ⟨"ub", "b"⟩ ⟨"uc", "c"⟩ hA hB⟩

/-- A network oracle on which every request fails. -/
def netFail : String → Option HttpResponse := fun _ => none

/-- An empty filesystem. -/
def fsEmpty : FS := fun _ => none

/-- A single concrete reference. -/
def linkOne : FileLink := ⟨"http://example/a.pdf", "a.pdf"⟩

/-- C7 counterexample: at a concrete input whose single download raises, the
error does propagate out of `downloadAllFiles`, but `confirmAndDownloadFiles`
catches it and returns normally — no error escapes the retrieval entry point,
so the claim that the failure is propagated out of `confirmAndDownloadFiles`
is false on this input. -/
theorem download_error_not_propagated_from_entry :
    downloadAllFiles netFail "downloads" fsEmpty [linkOne] =
      BatchResult.raised fsEmpty [Outcome.failed] ∧
    confirmAndDownloadFiles true netFail "downloads" fsEmpty [linkOne] =
      RunResult.returned fsEmpty [Outcome.failed] ∧
    (confirmAndDownloadFiles true netFail "downloads" fsEmpty [linkOne]).isRaised = false :=
  ⟨rfl, rfl, rfl⟩

/-- C7 amended: a file-download failure is re-raised by `downloadFile` and
propagates out of the batch operation `downloadAllFiles`, aborting the
remaining batch; `confirmAndDownloadFiles` then catches it, logs, and returns
normally — the error never escapes the retrieval entry point. -/
theorem batch_failure_contained_at_entry (net : String → Option HttpResponse)
    (folder : String) (fs fs1 : FS) (links : List FileLink) (outs : List Outcome)
    (h : downloadAllFiles net folder fs links = BatchResult.raised fs1 outs) :
    confirmAndDownloadFiles true net folder fs links = RunResult.returned fs1 outs ∧
    (confirmAndDownloadFiles true net folder fs links).isRaised = false := by
  simp [confirmAndDownloadFiles, h, RunResult.isRaised]

/-- C7 amended witness: the failing single-reference batch is contained. -/
theorem batch_failure_contained_at_entry_holds :
    confirmAndDownloadFiles true netFail "downloads" fsEmpty [linkOne] =
      RunResult.returned fsEmpty [Outcome.failed] ∧
    (confirmAndDownloadFiles true netFail "downloads" fsEmpty [linkOne]).isRaised = false :=
  batch_failure_contained_at_entry netFail "downloads" fsEmpty fsEmpty [linkOne]
    [Outcome.failed] rfl

/-- When every reference already has a correctly sized file at its destination,
the loop of `downloadAllFiles` skips every reference and leaves the filesystem
untouched. -/
theorem downloadAllFiles_all_skipped (net : String → Option HttpResponse)
    (folder : String) :
    ∀ (links : List FileLink) (fs : FS),
      (∀ l ∈ links, ∃ bytes n body, fs (pathJoin folder l.filename) = some bytes ∧
        net l.url = some ⟨some n, body⟩ ∧ bytes.length = n) →
      downloadAllFiles net folder fs links =
        BatchResult.ok fs (links.map fun _ => Outcome.skipped) := by
  intro links
  induction links with
  | nil => intro fs _; simp [downloadAllFiles]
  | cons l rest ih =>
    intro fs h
    obtain ⟨bytes, n, body, hfs, hnet, hlen⟩ := h l (by simp)
    have hdl : downloadFile net folder fs l = Except.ok (fs, false) := by
      simp [downloadFile, hnet, hfs, hlen]
    have hrest := ih fs (fun x hx => h x (by simp [hx]))
    simp [downloadAllFiles, hdl, hrest]

/-- C2: re-running retrieval with a "yes" confirmation against a folder that
already holds a correctly sized file for every reference returns normally with
outcome `skipped` for every reference, zero `downloaded` outcomes, and the
filesystem byte-identical to before. -/
theorem idempotent_download (net : String → Option HttpResponse)
    (folder : String) (fs : FS) (links : List FileLink)
    (h : ∀ l ∈ links, ∃ bytes n body, fs (pathJoin folder l.filename) = some bytes ∧
      net l.url = some ⟨some n, body⟩ ∧ bytes.length = n) :
    confirmAndDownloadFiles true net folder fs links =
      RunResult.returned fs (links.map fun _ => Outcome.skipped) ∧
    Outcome.downloaded ∉ (links.map fun _ => Outcome.skipped) := by
  constructor
  · simp [confirmAndDownloadFiles, downloadAllFiles_all_skipped net folder links fs h]
  · simp

/-- C2 witness: two references whose files are present with matching sizes are
both skipped and the filesystem is unchanged. -/
theorem idempotent_download_holds :
    confirmAndDownloadFiles true
        (fun s => if s = "ua" then some ⟨some 1, [7]⟩ else some ⟨some 2, [8, 9]⟩) "d"
        (fun p => if p = "d/a" then some [7] else if p = "d/b" then some [8, 9] else none)
        [⟨"ua", "a"⟩, ⟨"ub", "b"⟩] =
      RunResult.returned
        (fun p => if p = "d/a" then some [7] else if p = "d/b" then some [8, 9] else none)
        ([(⟨"ua", "a"⟩ : FileLink), ⟨"ub", "b"⟩].map fun _ => Outcome.skipped) ∧
    Outcome.downloaded ∉ ([(⟨"ua", "a"⟩ : FileLink), ⟨"ub", "b"⟩].map fun _ => Outcome.skipped) := by
  refine idempotent_download
    (fun s => if s = "ua" then some ⟨some 1, [7]⟩ else some ⟨some 2, [8, 9]⟩) "d"
    (fun p => if p = "d/a" then some [7] else if p = "d/b" then some [8, 9] else none)
    [⟨"ua", "a"⟩, ⟨"ub", "b"⟩] ?_
  intro l hl
  rcases List.mem_cons.mp hl with rfl | hl
  · exact ⟨[7], 1, [7], by simp [pathJoin], by simp, rfl⟩
  · rcases List.mem_cons.mp hl with rfl | hl
    · exact ⟨[8, 9], 2, [8, 9], by simp [pathJoin], by simp, rfl⟩
    · simp at hl

/-! ## Checkpoint round-trip (C8) -/

theorem hexVal_hexDigitChar : ∀ n, n < 16 → hexVal (hexDigitChar n) = some n := by decide

theorem parse_escapeChar (c : Char) (s : List Char) :
    parseStringBody (escapeChar c ++ s) = (parseStringBody s).map fun p => (c :: p.1, p.2) := by
  rw [escapeChar]
  by_cases h1 : c = '"'
  · subst h1
    rw [if_pos rfl, parseStringBody.eq_def]
    simp
  rw [if_neg h1]
  by_cases h2 : c = '\\'
  · subst h2
    rw [if_pos rfl, parseStringBody.eq_def]
    simp
  rw [if_neg h2]
  by_cases h8 : c = Char.ofNat 8
  · subst h8
    rw [if_pos rfl, parseStringBody.eq_def]
    simp
  rw [if_neg h8]
  by_cases h9 : c = Char.ofNat 9
  · subst h9
    rw [if_pos rfl, parseStringBody.eq_def]
    simp
  rw [if_neg h9]
  by_cases h10 : c = Char.ofNat 10
  · subst h10
    rw [if_pos rfl, parseStringBody.eq_def]
    simp
  rw [if_neg h10]
  by_cases h12 : c = Char.ofNat 12
  · subst h12
    rw [if_pos rfl, parseStringBody.eq_def]
    simp
  rw [if_neg h12]
  by_cases h13 : c = Char.ofNat 13
  · subst h13
    rw [if_pos rfl, parseStringBody.eq_def]
    simp
  rw [if_neg h13]
  by_cases hu : c.toNat < 32
  · rw [if_pos hu]
    have hv3 : hexVal (hexDigitChar (c.toNat / 16)) = some (c.toNat / 16) :=
      hexVal_hexDigitChar _ (by omega)
    have hv4 : hexVal (hexDigitChar (c.toNat % 16)) = some (c.toNat % 16) :=
      hexVal_hexDigitChar _ (by omega)
    have hv0 : hexVal '0' = some 0 := by decide
    have harith : c.toNat / 16 * 16 + c.toNat % 16 = c.toNat := by omega
    rw [parseStringBody.eq_def]
    simp [hv3, hv4, hv0]
    simp only [harith, Char.ofNat_toNat]
    rw [if_pos (Or.inl (by omega : c.toNat < 55296))]
  · rw [if_neg hu, parseStringBody.eq_def]
    simp [h1, h2, hu]

theorem parse_escapeList (l rest : List Char) :
    parseStringBody (escapeList l ++ ('"' :: rest)) = some (l, rest) := by
  induction l with
  | nil =>
    rw [parseStringBody.eq_def]
    simp [escapeList]
  | cons c t ih =>
    simp [escapeList, List.append_assoc, parse_escapeChar, ih]

theorem parseJsonString_quote (s : String) (rest : List Char) :
    parseJsonString (quoteJson s ++ rest) = some (s.data, rest) := by
  simp [quoteJson, parseJsonString, List.cons_append, List.append_assoc, parse_escapeList]

theorem skipWs_cons_ws (c : Char) (l : List Char) (h : isJsonWs c = true) :
    skipWs (c :: l) = skipWs l := by
  simp [skipWs, h]

theorem skipWs_cons_not_ws (c : Char) (l : List Char) (h : isJsonWs c = false) :
    skipWs (c :: l) = c :: l := by
  simp [skipWs, h]

theorem parseMember_spec (k v : String) (rest : List Char) :
    parseMember (quoteJson k ++ (':' :: (quoteJson v ++ rest))) = some (k, v, rest) := by
  have hmk : ∀ s : String, String.mk s.data = s := fun _ => rfl
  have hq : isJsonWs '"' = false := by decide
  have hc : isJsonWs ':' = false := by decide
  simp [parseMember, quoteJson, List.cons_append, List.append_assoc,
    skipWs_cons_not_ws, hq, hc, parseJsonString, parse_escapeList, expectChar, hmk]

theorem parseObject_spec (lk : FileLink) (rest : List Char) :
    parseObject (stringifyLink lk ++ rest) = some (lk, rest) := by
  have hb : isJsonWs '{' = false := by decide
  have hcm : isJsonWs ',' = false := by decide
  have hcl : isJsonWs '}' = false := by decide
  obtain ⟨u, f⟩ := lk
  simp [parseObject, stringifyLink, List.cons_append, List.append_assoc,
    skipWs_cons_not_ws, hb, hcm, hcl, expectChar, parseMember_spec]

theorem parseObject_ws (c : Char) (l : List Char) (h : isJsonWs c = true) :
    parseObject (c :: l) = parseObject l := by
  rw [parseObject, parseObject, skipWs_cons_ws c l h]

theorem parseItemsAux_ws (c : Char) (h : isJsonWs c = true) :
    ∀ fuel l, parseItemsAux fuel (c :: l) = parseItemsAux fuel l := by
  intro fuel l
  cases fuel with
  | zero => rfl
  | succ fuel => rw [parseItemsAux, parseItemsAux, parseObject_ws c l h]

theorem joinItems_single (lk : FileLink) :
    joinItems [lk] = ' ' :: ' ' :: stringifyLink lk := rfl

theorem joinItems_cons_cons (l1 l2 : FileLink) (tl : List FileLink) :
    joinItems (l1 :: l2 :: tl) =
      ' ' :: ' ' :: (stringifyLink l1 ++ ',' :: '\n' :: joinItems (l2 :: tl)) := rfl

theorem parseItemsAux_spec :
    ∀ (tl : List FileLink) (lk : FileLink) (fuel : Nat) (rest : List Char),
      tl.length + 1 ≤ fuel →
      parseItemsAux fuel (joinItems (lk :: tl) ++ ('\n' :: ']' :: rest)) =
        some (lk :: tl, rest) := by
  intro tl
  induction tl with
  | nil =>
    intro lk fuel rest hfuel
    obtain ⟨fuel, rfl⟩ : ∃ f, fuel = f + 1 := ⟨fuel - 1, by omega⟩
    have hsp : isJsonWs ' ' = true := by decide
    have hnl : isJsonWs '\n' = true := by decide
    have hcl : isJsonWs ']' = false := by decide
    rw [joinItems_single]
    simp only [List.cons_append]
    rw [parseItemsAux_ws ' ' hsp, parseItemsAux_ws ' ' hsp]
    rw [parseItemsAux]
    rw [parseObject_spec]
    simp only []
    rw [skipWs_cons_ws '\n' _ hnl, skipWs_cons_not_ws ']' _ hcl]
    simp
  | cons l2 tl2 ih =>
    intro lk fuel rest hfuel
    obtain ⟨fuel, rfl⟩ : ∃ f, fuel = f + 1 := ⟨fuel - 1, by omega⟩
    have hsp : isJsonWs ' ' = true := by decide
    have hnl : isJsonWs '\n' = true := by decide
    have hcm : isJsonWs ',' = false := by decide
    rw [joinItems_cons_cons]
    simp only [List.cons_append, List.append_assoc]
    rw [parseItemsAux_ws ' ' hsp, parseItemsAux_ws ' ' hsp]
    rw [parseItemsAux]
    rw [parseObject_spec]
    simp only []
    rw [skipWs_cons_not_ws ',' _ hcm]
    have hrec := ih l2 fuel rest (by simpa using Nat.lt_of_succ_le hfuel)
    simp only [List.cons_append] at hrec ⊢
    rw [if_pos trivial]
    rw [parseItemsAux_ws '\n' hnl, hrec]

theorem joinItems_length : ∀ links : List FileLink, links.length ≤ (joinItems links).length := by
  intro links
  induction links with
  | nil => simp [joinItems]
  | cons l tl ih =>
    cases tl with
    | nil => simp [joinItems_single]
    | cons l2 tl2 =>
      rw [joinItems_cons_cons]
      simp only [List.length_cons, List.length_append] at ih ⊢
      omega

/-- C8: serializing any list of `FileReference` with `saveFileLinksToJson` and
parsing the resulting file content back with standard JSON parsing yields the
identical ordered list — same urls, same filenames, same order. -/
theorem checkpoint_round_trip (links : List FileLink) :
    parseFileLinks (serializeFileLinks links) = some links := by
  cases links with
  | nil => rfl
  | cons lk tl =>
    have hsp : isJsonWs ' ' = true := by decide
    have hnl : isJsonWs '\n' = true := by decide
    have hbr : isJsonWs '[' = false := by decide
    have hob : isJsonWs '{' = false := by decide
    obtain ⟨W, hW⟩ : ∃ W, joinItems (lk :: tl) = ' ' :: ' ' :: (stringifyLink lk ++ W) := by
      cases tl with
      | nil => exact ⟨[], by rw [joinItems_single]; simp⟩
      | cons l2 tl2 =>
        exact ⟨',' :: '\n' :: joinItems (l2 :: tl2), by rw [joinItems_cons_cons]⟩
    obtain ⟨B, hB⟩ : ∃ B, stringifyLink lk = '{' :: B := ⟨_, rfl⟩
    have hdata : (serializeFileLinks (lk :: tl)).data =
        '[' :: '\n' :: (joinItems (lk :: tl) ++ '\n' :: ']' :: []) := rfl
    have hskip : skipWs (joinItems (lk :: tl) ++ '\n' :: ']' :: []) =
        '{' :: (B ++ (W ++ '\n' :: ']' :: [])) := by
      rw [hW]
      simp only [List.cons_append, List.append_assoc]
      rw [skipWs_cons_ws ' ' _ hsp, skipWs_cons_ws ' ' _ hsp, hB]
      simp only [List.cons_append, List.append_assoc]
      rw [skipWs_cons_not_ws '{' _ hob]
    have hitems : parseItemsAux ((serializeFileLinks (lk :: tl)).data.length + 1)
        ('{' :: (B ++ (W ++ '\n' :: ']' :: []))) = some (lk :: tl, []) := by
      have hback : '{' :: (B ++ (W ++ '\n' :: ']' :: [])) =
          stringifyLink lk ++ W ++ '\n' :: ']' :: [] := by
        rw [hB]; simp
      rw [hback]
      have habs : parseItemsAux ((serializeFileLinks (lk :: tl)).data.length + 1)
          (joinItems (lk :: tl) ++ '\n' :: ']' :: []) =
          parseItemsAux ((serializeFileLinks (lk :: tl)).data.length + 1)
            (stringifyLink lk ++ W ++ '\n' :: ']' :: []) := by
        rw [hW]
        simp only [List.cons_append, List.append_assoc]
        rw [parseItemsAux_ws ' ' hsp, parseItemsAux_ws ' ' hsp]
      rw [← habs]
      apply parseItemsAux_spec
      have hj := joinItems_length (lk :: tl)
      rw [hdata]
      simp only [List.length_cons, List.length_append] at hj ⊢
      omega
    rw [parseFileLinks, hdata, parseArrayOfLinks]
    rw [skipWs_cons_not_ws '[' _ hbr, expectChar, if_pos rfl]
    simp only []
    rw [skipWs_cons_ws '\n' _ hnl, hskip]
    simp only []
    rw [if_neg (by decide : ¬('{' : Char) = ']')]
    rw [hdata] at hitems
    rw [hitems]
    simp [skipWs]

end KoFin
